import Mathlib

/-!
# Verification of the rvlox scanner, compiler and virtual machine

Shallow embedding of the rvlox sources (`src/scanner.rs`, `src/compiler.rs`,
`src/common.rs`, `src/value.rs`, `src/vm.rs`).

Modelling conventions:
* Rust `f64` literal values are modelled as exact rationals (`ℚ`).  Every
  numeric computation appearing in the claims below stays inside the integers,
  where IEEE-754 double arithmetic is exact, so the rational model agrees with
  the Rust semantics on these inputs.
* Rust iterators over characters are modelled as `List Char` cursors.
* Rust panics (out-of-bounds indexing, `unwrap` on `None`, explicit `panic!`
  calls) are modelled as the `error` branch of `Except` (for the compiler) or a
  dedicated `crash` outcome (for the VM).
* The character-consuming loops of the scanner and the mutually recursive
  parser functions are given a fuel parameter; the public entry points supply
  fuel that dominates every terminating Rust run (each loop iteration and each
  parser recursion consumes at least one character or token).  Running out of
  fuel is a distinguished `outOfFuel` error, never silently conflated with a
  Rust behaviour.
-/

namespace Rvlox

/-! ## Tokens (`scanner.rs`, lines 12-67) -/

/-- `TokenType` from `scanner.rs`.  The Rust `Number` payload is an `f64`;
here it is an exact rational (see the header note).  Keyword constructors
carry a `Kw` suffix because their Rust names collide with Lean keywords. -/
inductive TokenType where
  | leftParen | rightParen | leftBrace | rightBrace
  | comma | dot | minus | plus | semicolon | slash | star
  | bang | bangEqual | equal | equalEqual
  | greater | greaterEqual | less | lessEqual
  | identifier (s : String)
  | stringLit (s : String)
  | number (d : ℚ)
  | andKw | classKw | elseKw | falseKw | funKw | forKw | ifKw | nilKw
  | orKw | printKw | returnKw | superKw | thisKw | trueKw | varKw | whileKw
  | error (msg : String)
  deriving DecidableEq, Repr

/-- `Token` from `scanner.rs`: a token type plus a 1-based source line. -/
structure Token where
  t_type : TokenType
  line : Nat
  deriving DecidableEq, Repr

/-- Model of the `PartialEq` implementation derived on `TokenType`:
two token types compare equal iff they are the same constructor and their
payloads (for `Identifier`, `String`, `Number`) compare equal.  (The Rust
payload of `Number` is an `f64`; on the scanner-produced values modelled
here, `f64` equality coincides with rational equality.) -/
def TokenType.peq : TokenType → TokenType → Bool
  | .leftParen, .leftParen => true
  | .rightParen, .rightParen => true
  | .leftBrace, .leftBrace => true
  | .rightBrace, .rightBrace => true
  | .comma, .comma => true
  | .dot, .dot => true
  | .minus, .minus => true
  | .plus, .plus => true
  | .semicolon, .semicolon => true
  | .slash, .slash => true
  | .star, .star => true
  | .bang, .bang => true
  | .bangEqual, .bangEqual => true
  | .equal, .equal => true
  | .equalEqual, .equalEqual => true
  | .greater, .greater => true
  | .greaterEqual, .greaterEqual => true
  | .less, .less => true
  | .lessEqual, .lessEqual => true
  | .identifier a, .identifier b => decide (a = b)
  | .stringLit a, .stringLit b => decide (a = b)
  | .number a, .number b => decide (a = b)
  | .andKw, .andKw => true
  | .classKw, .classKw => true
  | .elseKw, .elseKw => true
  | .falseKw, .falseKw => true
  | .funKw, .funKw => true
  | .forKw, .forKw => true
  | .ifKw, .ifKw => true
  | .nilKw, .nilKw => true
  | .orKw, .orKw => true
  | .printKw, .printKw => true
  | .returnKw, .returnKw => true
  | .superKw, .superKw => true
  | .thisKw, .thisKw => true
  | .trueKw, .trueKw => true
  | .varKw, .varKw => true
  | .whileKw, .whileKw => true
  | .error a, .error b => decide (a = b)
  | _, _ => false

/-- Model of the `PartialEq` implementation derived on `Token`
(`#[derive(Debug, PartialEq, Clone)]` on `struct Token`): the derived
instance compares **all** fields, i.e. both `t_type` and `line`. -/
def Token.peq (a b : Token) : Bool :=
  a.t_type.peq b.t_type && decide (a.line = b.line)

/-! ## Scanner state (`scanner.rs`, lines 4-10)

`start: Chars` and `current: Peekable<Chars>` are modelled as `List Char`
cursors into the source; `look_ahead` is the one-character buffer used by
`peek_next`; `cur_len` counts the characters of the lexeme in progress. -/

structure Scanner where
  start : List Char
  current : List Char
  lookAhead : Option Char
  curLen : Nat
  line : Nat
  deriving DecidableEq, Repr

namespace Scanner

/-- `Scanner::new`: both cursors point at the whole source. -/
def new (source : List Char) : Scanner :=
  { start := source, current := source, lookAhead := none, curLen := 0, line := 1 }

/-- `Scanner::advance` (lines 80-91): take the buffered look-ahead character
if present, otherwise the next character of `current`; count it in `cur_len`. -/
def advance (st : Scanner) : Option Char × Scanner :=
  match st.lookAhead with
  | some la => (some la, { st with lookAhead := none, curLen := st.curLen + 1 })
  | none =>
    match st.current with
    | [] => (none, st)
    | c :: cs => (some c, { st with current := cs, curLen := st.curLen + 1 })

/-- `Scanner::peek` (lines 354-359). -/
def peek (st : Scanner) : Option Char :=
  match st.lookAhead with
  | some la => some la
  | none => st.current.head?

/-- `Scanner::peek_next` (lines 361-367): when no look-ahead is buffered yet,
pop the next character of `current` into the buffer and peek at the one after
it. -/
def peekNext (st : Scanner) : Option Char × Scanner :=
  match st.lookAhead with
  | some _ => (st.current.head?, st)
  | none =>
    match st.current with
    | [] => (none, { st with lookAhead := none })
    | c :: cs => (cs.head?, { st with lookAhead := some c, current := cs })

/-- `Scanner::make_token` (lines 93-98). -/
def makeToken (st : Scanner) (t_type : TokenType) : Token :=
  { t_type := t_type, line := st.line }

/-- `Scanner::error_token` (lines 100-105). -/
def errorToken (st : Scanner) (msg : String) : Token :=
  { t_type := TokenType.error msg, line := st.line }

/-- `Scanner::scan_lexeme` (lines 107-114): pop `cur_len` characters off
`start` and return them. -/
def scanLexeme (st : Scanner) : List Char × Scanner :=
  (st.start.take st.curLen, { st with start := st.start.drop st.curLen, curLen := 0 })

/-- `Scanner::scan_str_lexeme` (lines 116-126): skip the opening quote, take
`cur_len - 2` characters, skip the closing quote. -/
def scanStrLexeme (st : Scanner) : List Char × Scanner :=
  ((st.start.drop 1).take (st.curLen - 2),
   { st with start := st.start.drop st.curLen, curLen := 0 })

/-- `Scanner::sync_start` (lines 347-352): drop the pending lexeme. -/
def syncStart (st : Scanner) : Scanner :=
  { st with start := st.start.drop st.curLen, curLen := 0 }

/-- `Scanner::next_matches` (lines 298-306). -/
def nextMatches (st : Scanner) (c : Char) : Bool × Scanner :=
  match st.peek with
  | some n => if c = n then (true, (st.advance).2) else (false, st)
  | none => (false, st)

/-- `Scanner::possible_two_char_token` (lines 161-173). -/
def possibleTwoCharToken (st : Scanner) (curType : TokenType) (charToMatch : Char)
    (possibleType : TokenType) : Token × Scanner :=
  let (m, st) := st.nextMatches charToMatch
  (st.makeToken (if m then possibleType else curType), st)

/-- `Scanner::is_allowed_for_identifier` (lines 154-159). -/
def isAllowedForIdentifier (c : Char) : Bool :=
  (('a' ≤ c && c ≤ 'z') || ('A' ≤ c && c ≤ 'Z') || c = '_')

/-- The `while` loop of `Scanner::string` (lines 176-184): consume until an
unconsumed `"` or end of input, bumping `line` on newlines.  Fuel-recursive;
the caller supplies more fuel than there are characters left. -/
def stringLoop : Nat → Scanner → Scanner
  | 0, st => st
  | n + 1, st =>
    match st.peek with
    | some c =>
      if c = '"' then st
      else
        let st := if c = '\n' then { st with line := st.line + 1 } else st
        stringLoop n (st.advance).2
    | none => st

/-- `Scanner::string` (lines 175-192). -/
def stringTok (n : Nat) (st : Scanner) : Token × Scanner :=
  let st := stringLoop n st
  match st.peek with
  | none => (st.errorToken "Unterminated string", st)
  | some _ =>
    let st := (st.advance).2
    let (lex, st) := st.scanStrLexeme
    (st.makeToken (TokenType.stringLit (String.mk lex)), st)

/-- `Scanner::advance_while_digit` (lines 213-217), fuel-recursive. -/
def advanceWhileDigit : Nat → Scanner → Scanner
  | 0, st => st
  | n + 1, st =>
    match st.peek with
    | some c => if c.isDigit then advanceWhileDigit n (st.advance).2 else st
    | none => st

/-- The value of a run of decimal digits, most significant first. -/
def digitsVal (cs : List Char) : Nat :=
  cs.foldl (fun a c => a * 10 + (c.toNat - 48)) 0

/-- Models `str::parse::<f64>` on the lexemes produced by `Scanner::number`
(a digit run optionally followed by `.` and a digit run), as an exact
rational.  On such lexemes the parsed `f64` is the correctly rounded value of
this rational; for the integral values appearing in the claims the rounding
is the identity. -/
def parseDouble (cs : List Char) : ℚ :=
  let intPart := cs.takeWhile Char.isDigit
  match cs.dropWhile Char.isDigit with
  | '.' :: frac => (digitsVal intPart : ℚ) + (digitsVal frac : ℚ) / (10 ^ frac.length : ℚ)
  | _ => (digitsVal intPart : ℚ)

/-- `Scanner::number` (lines 194-211): consume a maximal digit run; then, if
the next character is `.` **and** the character after it is a digit, consume
the `.` and a further digit run (note that `peek_next` buffers the `.` into
`look_ahead` even when no digit follows); finally parse the lexeme. -/
def numberTok (n : Nat) (st : Scanner) : Token × Scanner :=
  let st := advanceWhileDigit n st
  let st :=
    match st.peek with
    | some '.' =>
      let (pn, st') := st.peekNext
      match pn with
      | some c =>
        if c.isDigit then advanceWhileDigit n (st'.advance).2 else st'
      | none => st'
    | _ => st
  let (lex, st) := st.scanLexeme
  (st.makeToken (TokenType.number (parseDouble lex)), st)

/-- `Scanner::check_suffix` (lines 284-296). -/
def checkSuffix (from_ : Nat) (lexeme : List Char) (suffix : List Char)
    (t_type : TokenType) : Option TokenType :=
  if lexeme.drop from_ = suffix then some t_type else none

/-- `Scanner::check_if_keyword` (lines 241-282): first-character dispatch
followed by suffix comparison.  Identifier lexemes are ASCII, so the Rust
byte-level comparison coincides with this character-level one; the lexeme is
never empty (`identifier` consumed at least one character), so the `bs[0]`
index cannot fault — the empty case below is unreachable. -/
def checkIfKeyword (lexeme : List Char) : Option TokenType :=
  match lexeme with
  | [] => none
  | b0 :: bs =>
    match b0 with
    | 'a' => checkSuffix 1 lexeme ['n', 'd'] TokenType.andKw
    | 'c' => checkSuffix 1 lexeme ['l', 'a', 's', 's'] TokenType.classKw
    | 'e' => checkSuffix 1 lexeme ['l', 's', 'e'] TokenType.elseKw
    | 'i' => checkSuffix 1 lexeme ['f'] TokenType.ifKw
    | 'n' => checkSuffix 1 lexeme ['i', 'l'] TokenType.nilKw
    | 'o' => checkSuffix 1 lexeme ['r'] TokenType.orKw
    | 'p' => checkSuffix 1 lexeme ['r', 'i', 'n', 't'] TokenType.printKw
    | 'r' => checkSuffix 1 lexeme ['e', 't', 'u', 'r', 'n'] TokenType.returnKw
    | 's' => checkSuffix 1 lexeme ['u', 'p', 'e', 'r'] TokenType.superKw
    | 'v' => checkSuffix 1 lexeme ['a', 'r'] TokenType.varKw
    | 'w' => checkSuffix 1 lexeme ['h', 'i', 'l', 'e'] TokenType.whileKw
    | 't' =>
      match bs with
      | b1 :: _ =>
        match b1 with
        | 'h' => checkSuffix 2 lexeme ['i', 's'] TokenType.thisKw
        | 'r' => checkSuffix 2 lexeme ['u', 'e'] TokenType.trueKw
        | _ => none
      | [] => none
    | 'f' =>
      match bs with
      | b1 :: _ =>
        match b1 with
        | 'a' => checkSuffix 2 lexeme ['l', 's', 'e'] TokenType.falseKw
        | 'o' => checkSuffix 2 lexeme ['r'] TokenType.forKw
        | 'u' => checkSuffix 2 lexeme ['n'] TokenType.funKw
        | _ => none
      | [] => none
    | _ => none

/-- `Scanner::keyword_or_identifier` (lines 230-239). -/
def keywordOrIdentifier (st : Scanner) : Token × Scanner :=
  let (lex, st) := st.scanLexeme
  match checkIfKeyword lex with
  | some kw => (st.makeToken kw, st)
  | none => (st.makeToken (TokenType.identifier (String.mk lex)), st)

/-- The `while` loop of `Scanner::identifier` (lines 219-228). -/
def identLoop : Nat → Scanner → Scanner
  | 0, st => st
  | n + 1, st =>
    match st.peek with
    | some c =>
      if isAllowedForIdentifier c then identLoop n (st.advance).2 else st
    | none => st

/-- `Scanner::identifier` (lines 219-228). -/
def identifierTok (n : Nat) (st : Scanner) : Token × Scanner :=
  keywordOrIdentifier (identLoop n st)

/-- The inner `while` loop of `Scanner::skip_if_comment` (lines 335-340):
consume to the end of the line. -/
def commentLoop : Nat → Scanner → Scanner
  | 0, st => st
  | n + 1, st =>
    match st.peek with
    | some cc => if cc = '\n' then st else commentLoop n (st.advance).2
    | none => st

/-- `Scanner::skip_if_comment` (lines 333-345).  Note that `peek_next`
buffers a character into `look_ahead` even when the answer is `false`. -/
def skipIfComment (n : Nat) (st : Scanner) : Bool × Scanner :=
  let (pn, st') := st.peekNext
  match pn with
  | some '/' => (true, commentLoop n st')
  | _ => (false, st')

/-- The loop of `Scanner::skip_whitespaces` (lines 308-331). -/
def wsLoop : Nat → Scanner → Scanner
  | 0, st => st
  | n + 1, st =>
    match st.peek with
    | none => st
    | some c =>
      if c = ' ' || c = '\r' || c = '\t' then wsLoop n (st.advance).2
      else if c = '\n' then wsLoop n (({ st with line := st.line + 1 }).advance).2
      else if c = '/' then
        let (isComment, st') := skipIfComment n st
        if isComment then wsLoop n st' else st'
      else st

/-- `Scanner::skip_whitespaces` (lines 308-331): run the loop, then
`sync_start`. -/
def skipWhitespaces (n : Nat) (st : Scanner) : Scanner :=
  (wsLoop n st).syncStart

/-- `Scanner::match_char` (lines 128-152). -/
def matchChar (n : Nat) (c : Char) (st : Scanner) : Token × Scanner :=
  match c with
  | '(' => (st.makeToken TokenType.leftParen, st)
  | ')' => (st.makeToken TokenType.rightParen, st)
  | '{' => (st.makeToken TokenType.leftBrace, st)
  | '}' => (st.makeToken TokenType.rightBrace, st)
  | ';' => (st.makeToken TokenType.semicolon, st)
  | ',' => (st.makeToken TokenType.comma, st)
  | '.' => (st.makeToken TokenType.dot, st)
  | '-' => (st.makeToken TokenType.minus, st)
  | '+' => (st.makeToken TokenType.plus, st)
  | '/' => (st.makeToken TokenType.slash, st)
  | '*' => (st.makeToken TokenType.star, st)
  | '!' => st.possibleTwoCharToken TokenType.bang '=' TokenType.bangEqual
  | '=' => st.possibleTwoCharToken TokenType.equal '=' TokenType.equalEqual
  | '>' => st.possibleTwoCharToken TokenType.greater '=' TokenType.greaterEqual
  | '<' => st.possibleTwoCharToken TokenType.less '=' TokenType.lessEqual
  | '"' => stringTok n st
  | c =>
    if c.isDigit then numberTok n st
    else if isAllowedForIdentifier c then identifierTok n st
    else (st.makeToken (TokenType.error "Unexpected character"), st)

/-- Fuel that dominates every loop started by one `Scanner::next` call: each
loop iteration consumes at least one of the characters still buffered or in
`current`. -/
def fuelFor (st : Scanner) : Nat :=
  st.current.length + 2

/-- `<Scanner as Iterator>::next` (lines 373-380) at a given fuel. -/
def nextTok (n : Nat) (st : Scanner) : Option Token × Scanner :=
  let st := st.skipWhitespaces n
  let (c?, st) := st.advance
  match c? with
  | some c =>
    let (t, st) := st.matchChar n c
    (some t, st)
  | none => (none, st)

/-- `Scanner::next` as called by the compiler: one token (or `none` at end of
input), with sufficient fuel computed from the state. -/
def nextToken (st : Scanner) : Option Token × Scanner :=
  nextTok (fuelFor st) st

/-- Drain the scanner into a token list (the test harness's view of the
lexer's lazy sequence). -/
def tokenize : Nat → Scanner → List Token
  | 0, _ => []
  | n + 1, st =>
    match st.nextToken with
    | (some t, st') => t :: tokenize n st'
    | (none, _) => []

/-- All tokens of a source string. -/
def scanAll (source : String) : List Token :=
  tokenize (source.length + 1) (Scanner.new source.toList)

end Scanner

/-! ## Values (`value.rs`) -/

/-- `Value` from `value.rs`: a single `Double` variant.  The `f64` payload is
modelled as an exact rational (see the header note). -/
inductive Value where
  | double (d : ℚ)
  deriving DecidableEq, Repr

namespace Value

/-- `Value::negate` (`value.rs`, lines 19-23). -/
def negate : Value → Value
  | .double d => .double (-d)

/-- `Value::add` (`value.rs`, line 25).  The source invokes the macro as
`binary_operator!(self, add, -)`, so the expanded method computes `l - r`,
not `l + r`. -/
def add : Value → Value → Value
  | .double l, .double r => .double (l - r)

/-- `Value::subtract` (`value.rs`, line 27): `binary_operator!(self, subtract, -)`. -/
def subtract : Value → Value → Value
  | .double l, .double r => .double (l - r)

/-- `Value::multiply` (`value.rs`, line 29): `binary_operator!(self, multiply, *)`. -/
def multiply : Value → Value → Value
  | .double l, .double r => .double (l * r)

/-- `Value::divide` (`value.rs`, line 31): `binary_operator!(self, divide, /)`.
Rational division models IEEE-754 division exactly on the exactly-representable
quotients appearing in the claims; division by zero (IEEE infinity/NaN) is
outside the fragment exercised here. -/
def divide : Value → Value → Value
  | .double l, .double r => .double (l / r)

end Value

/-! ## Instructions and chunks (`common.rs`) -/

/-- `Instruction` from `common.rs` (lines 3-12).  `Return` is spelt `ret`
because `return` is a Lean keyword. -/
inductive Instruction where
  | ret
  | constant (index : Nat)
  | negate
  | add
  | subtract
  | multiply
  | divide
  deriving DecidableEq, Repr

/-- `Chunk` from `common.rs` (lines 17-20); `InstructionWithLine` is the pair
`(Instruction, line)`. -/
structure Chunk where
  instructions : List (Instruction × Nat)
  constants : List Value
  deriving DecidableEq, Repr

namespace Chunk

/-- `Chunk::new` (lines 23-28). -/
def new : Chunk := { instructions := [], constants := [] }

/-- `Chunk::add_instruction` (lines 30-32). -/
def addInstruction (c : Chunk) (oc : Instruction) (line : Nat) : Chunk :=
  { c with instructions := c.instructions ++ [(oc, line)] }

/-- `Chunk::add_constant` (lines 34-37): push the value, return its index. -/
def addConstant (c : Chunk) (v : Value) : Nat × Chunk :=
  (c.constants.length, { c with constants := c.constants ++ [v] })

/-- `Chunk::read_constant` (lines 39-41).  `&self.constants[i]` panics when
`i` is out of bounds; the panic is the `none` case at the VM call site. -/
def readConstant (c : Chunk) (i : Nat) : Option Value :=
  c.constants.get? i

/-- `Chunk::disassemble` (lines 45-49): the sequence of
(index, instruction-with-line) pairs printed, one line each. -/
def disassemble (c : Chunk) : List (Nat × (Instruction × Nat)) :=
  c.instructions.enum

end Chunk

/-! ## Compiler (`compiler.rs`) -/

/-- `ErrorLocation` from `compiler.rs` (lines 38-41). -/
inductive ErrorLocation where
  | token (t : Token)
  | atTheEnd
  deriving DecidableEq, Repr

/-- `Error` from `compiler.rs` (lines 33-36). -/
structure Error where
  location : ErrorLocation
  msg : String
  deriving DecidableEq, Repr

namespace Error

/-- `Error::new` (lines 236-241). -/
def new (token : Token) (msg : String) : Error :=
  { location := ErrorLocation.token token, msg := msg }

/-- `Error::new_at_the_end` (lines 243-248). -/
def newAtTheEnd (msg : String) : Error :=
  { location := ErrorLocation.atTheEnd, msg := msg }

end Error

/-- `Precedence` from `compiler.rs` (lines 43-56). -/
inductive Precedence where
  | none | assignment | or | and | equality | comparison
  | term | factor | unary | call | primary
  deriving DecidableEq, Repr

namespace Precedence

/-- Declaration order of the variants, which is what the derived
`PartialOrd` on `Precedence` compares. -/
def toNat : Precedence → Nat
  | .none => 0 | .assignment => 1 | .or => 2 | .and => 3 | .equality => 4
  | .comparison => 5 | .term => 6 | .factor => 7 | .unary => 8
  | .call => 9 | .primary => 10

/-- The derived `PartialOrd` comparison `<` on `Precedence`. -/
def lt (a b : Precedence) : Bool :=
  a.toNat < b.toNat

/-- `Precedence::next` (lines 251-268). -/
def next : Precedence → Precedence
  | .none => .assignment
  | .assignment => .or
  | .or => .and
  | .and => .equality
  | .equality => .comparison
  | .comparison => .term
  | .term => .factor
  | .factor => .unary
  | .unary => .call
  | .call => .primary
  | .primary => .primary

end Precedence

/-- `impl ParseRule for TokenType` (`compiler.rs`, lines 274-296): the infix
precedence table. -/
def TokenType.precedence : TokenType → Precedence
  | .leftParen => .call
  | .dot => .call
  | .minus => .term
  | .plus => .term
  | .slash => .factor
  | .star => .factor
  | .bangEqual => .equality
  | .equalEqual => .equality
  | .greater => .comparison
  | .greaterEqual => .comparison
  | .less => .comparison
  | .lessEqual => .comparison
  | .andKw => .and
  | .orKw => .or
  | _ => .none

/-- `Compiler` state (`compiler.rs`, lines 23-31).  The `chunk: &'b mut Chunk`
borrow is modelled by embedding the chunk in the state. -/
structure Compiler where
  scanner : Scanner
  current : Option Token
  previous : Option Token
  errors : List Error
  panicMode : Bool
  chunk : Chunk
  lastTokenLine : Nat
  deriving DecidableEq, Repr

/-- How a modelled compilation can fail to produce a state: `bug` models a
Rust panic (`panic!` in `infix_rule`/`unary`/`binary`, or `unwrap` on `None`);
`outOfFuel` is an artefact of the fuel-based embedding and is never produced
at the fuel supplied by `runCompiler` on a terminating Rust run. -/
inductive CompileCrash where
  | bug (msg : String)
  | outOfFuel
  deriving DecidableEq, Repr

namespace Compiler

/-- `Compiler::error` (`compiler.rs`, lines 206-214): suppressed in panic
mode; otherwise sets panic mode and appends a structured error. -/
def reportError (st : Compiler) (msg : String) (token : Token) : Compiler :=
  if st.panicMode then st
  else { st with panicMode := true, errors := st.errors ++ [Error.new token msg] }

/-- `Compiler::error_at_the_end` (lines 216-224). -/
def reportErrorAtTheEnd (st : Compiler) (msg : String) : Compiler :=
  if st.panicMode then st
  else { st with panicMode := true, errors := st.errors ++ [Error.newAtTheEnd msg] }

/-- `Compiler::emit_instruction` (lines 165-167): tag with the given token's
line. -/
def emitInstruction (st : Compiler) (instruction : Instruction) (token : Token) : Compiler :=
  { st with chunk := st.chunk.addInstruction instruction token.line }

/-- `Compiler::emit_instruction_for_last_token` (lines 169-172): tag with
`last_token_line`. -/
def emitInstructionForLastToken (st : Compiler) (instruction : Instruction) : Compiler :=
  { st with chunk := st.chunk.addInstruction instruction st.lastTokenLine }

/-- The loop of `Compiler::advance` (lines 193-203): pull scanner tokens,
reporting and skipping `Error` tokens, until a non-error token or end of
input. -/
def advanceLoop : Nat → Compiler → Except CompileCrash Compiler
  | 0, _ => .error .outOfFuel
  | n + 1, st =>
    match st.scanner.nextToken with
    | (some t, sc') =>
      match t.t_type with
      | TokenType.error e =>
        advanceLoop n (({ st with scanner := sc', current := some t }).reportError e t)
      | _ => .ok { st with scanner := sc', current := some t }
    | (none, sc') => .ok { st with scanner := sc', current := none }

/-- `Compiler::advance` (lines 186-204): shift `current` into `previous`,
record its line in `last_token_line`, then pull the next non-error token. -/
def advanceC (n : Nat) (st : Compiler) : Except CompileCrash Compiler :=
  let st :=
    { st with
      previous := st.current
      lastTokenLine :=
        match st.current with
        | some t => t.line
        | none => st.lastTokenLine }
  advanceLoop n st

/-- `Compiler::consume` (lines 174-184). -/
def consume (n : Nat) (st : Compiler) (t_type : TokenType) (errorMsg : String) :
    Except CompileCrash Compiler :=
  match st.current with
  | some current =>
    if current.t_type.peq t_type then advanceC n st
    else .ok (st.reportError errorMsg current)
  | none => .ok (st.reportErrorAtTheEnd errorMsg)

/-- `Compiler::number` (lines 144-147): allocate a constant slot for the
literal and emit `Constant` referencing it, tagged with the literal token's
line. -/
def numberFn (st : Compiler) (numberVal : ℚ) (token : Token) : Compiler :=
  let (constant, chunk') := st.chunk.addConstant (Value.double numberVal)
  emitInstruction { st with chunk := chunk' } (Instruction.constant constant) token

mutual

/-- `Compiler::parse_precedence` (lines 80-96): advance, dispatch the prefix
rule of the consumed token, then loop on infix operators binding at least as
tightly as `precedence`. -/
def parsePrecedence : Nat → Precedence → Compiler → Except CompileCrash Compiler
  | 0, _, _ => .error .outOfFuel
  | n + 1, precedence, st => do
    let st ← advanceC n st
    match st.previous with
    | none => .ok st
    | some token => do
      let st ← prefixRule n token st
      parseLoop n precedence st

/-- The `while` loop of `Compiler::parse_precedence` (lines 86-94): while the
current token's infix precedence is at least `precedence`, advance and
dispatch its infix rule.  The `self.previous().unwrap()` cannot fault (the
loop only advances when `current` is `Some`), but the `unwrap` is modelled
faithfully as a potential panic. -/
def parseLoop : Nat → Precedence → Compiler → Except CompileCrash Compiler
  | 0, _, _ => .error .outOfFuel
  | n + 1, precedence, st =>
    match st.current with
    | none => .ok st
    | some currentToken =>
      if currentToken.t_type.precedence.lt precedence then .ok st
      else do
        let st ← advanceC n st
        match st.previous with
        | none => .error (.bug "previous unwrap")
        | some prev => do
          let st ← infixRule n prev st
          parseLoop n precedence st

/-- `Compiler::prefix_rule` (lines 98-106): grouping for `(`, unary for `-`,
literal for a number; anything else is the "Expect expression" syntax
error. -/
def prefixRule (n : Nat) (token : Token) (st : Compiler) : Except CompileCrash Compiler :=
  match token.t_type with
  | TokenType.leftParen => grouping n st
  | TokenType.minus => unary n token st
  | TokenType.number d => .ok (numberFn st d token)
  | _ => .ok (st.reportError "Expect expression" token)

/-- `Compiler::infix_rule` (lines 108-120): binary for `- + * /`; any other
token type hits the `panic!` arm. -/
def infixRule (n : Nat) (token : Token) (st : Compiler) : Except CompileCrash Compiler :=
  match token.t_type with
  | TokenType.minus => binary n token st
  | TokenType.plus => binary n token st
  | TokenType.star => binary n token st
  | TokenType.slash => binary n token st
  | _ => .error (.bug "infix_rule")

/-- `Compiler::grouping` (lines 122-128): a nested expression followed by a
required `)`. -/
def grouping (n : Nat) (st : Compiler) : Except CompileCrash Compiler := do
  let st ← expression n st
  consume n st TokenType.rightParen "Expect to have ')' at the end of grouping expression"

/-- `Compiler::unary` (lines 130-142): parse the operand as a full
`expression`, then emit `Negate` tagged with the operator token's line.
A non-`Minus` operator hits the `panic!` arm. -/
def unary (n : Nat) (opToken : Token) (st : Compiler) : Except CompileCrash Compiler := do
  let st ← expression n st
  match opToken.t_type with
  | TokenType.minus => .ok (emitInstruction st Instruction.negate opToken)
  | _ => .error (.bug "unary")

/-- `Compiler::binary` (lines 149-163): parse the right operand at the
operator's precedence plus one, then emit the instruction tagged with the
line of the last consumed token. -/
def binary (n : Nat) (token : Token) (st : Compiler) : Except CompileCrash Compiler := do
  let st ← parsePrecedence n token.t_type.precedence.next st
  match token.t_type with
  | TokenType.plus => .ok (emitInstructionForLastToken st Instruction.add)
  | TokenType.minus => .ok (emitInstructionForLastToken st Instruction.subtract)
  | TokenType.star => .ok (emitInstructionForLastToken st Instruction.multiply)
  | TokenType.slash => .ok (emitInstructionForLastToken st Instruction.divide)
  | _ => .error (.bug "binary")

/-- `Compiler::expression` (lines 76-78): parse at the lowest real
precedence, `Assignment`. -/
def expression : Nat → Compiler → Except CompileCrash Compiler
  | 0, _ => .error .outOfFuel
  | n + 1, st => parsePrecedence n Precedence.assignment st

end

/-- `Compiler::finish_compiler` (lines 72-74): the trailing `Return`, tagged
with `last_token_line`. -/
def finishCompiler (st : Compiler) : Compiler :=
  st.emitInstructionForLastToken Instruction.ret

/-- `Compiler::new` (lines 59-70): pull the first token directly from the
scanner (without the error-skipping loop of `advance`). -/
def new (source : List Char) : Compiler :=
  let (current, sc) := (Scanner.new source).nextToken
  { scanner := sc
    current := current
    previous := none
    errors := []
    panicMode := false
    chunk := Chunk.new
    lastTokenLine := 0 }

end Compiler

/-- Fuel passed to the parser by the modelled entry points.  Every mutual
call decrements the fuel by at most one, and along any call path at least one
source character is consumed per constant number of decrements, so this bound
dominates every terminating Rust run. -/
def compileFuel (source : String) : Nat :=
  16 * (source.length + 2)

/-- The body of `compile_to_chunk` (`compiler.rs`, lines 11-21), returning
the whole final compiler state (the Rust local `compiler` just before it is
dropped, with the chunk it mutated). -/
def runCompiler (source : String) : Except CompileCrash Compiler :=
  (Compiler.expression (compileFuel source) (Compiler.new source.toList)).map
    Compiler.finishCompiler

/-- `compile_to_chunk` (`compiler.rs`, lines 11-21): the chunk built by one
compilation. -/
def compileToChunk (source : String) : Except CompileCrash Chunk :=
  (runCompiler source).map Compiler.chunk

/-- `compile` (`compiler.rs`, lines 5-9): `pub fn compile(source: &str)` has
return type `()`.  It builds the chunk, prints its disassembly, and returns
nothing — neither the chunk nor the collected errors escape. -/
def compile (source : String) : Except CompileCrash Unit :=
  (compileToChunk source).map fun chunk =>
    let _ := chunk.disassemble
    ()

/-! ## Virtual machine (`vm.rs`) -/

/-- `InterpretResult` from `vm.rs` (lines 10-14). -/
inductive InterpretResult where
  | ok
  | compileError
  | runtimeError
  deriving DecidableEq, Repr

/-- Outcome of `VM::interpret`: `ok printed` is `InterpretResult::Ok`
together with the value printed by the `Return` arm
(`println!("{:?}", self.stack_pop())` — an `Option<Value>`);
`runtimeError` is `InterpretResult::RuntimeError`; `crash` models the Rust
panics on out-of-bounds indexing (`read_instruction` walking past the end of
`instructions`, or `read_constant` with a bad index).  An operand-stack pop
never crashes: `stack_pop` is `Vec::pop`, which returns an `Option`. -/
inductive VMOutcome where
  | ok (printed : Option Value)
  | runtimeError
  | crash
  deriving DecidableEq, Repr

/-- The execution loop of `VM::interpret` (`vm.rs`, lines 35-61), from an
arbitrary instruction pointer (the suffix of the instruction list still to
run) and operand stack.  The binary arms expand `binary_stack_op!`: pop the
right operand, then the left, failing with `RuntimeError` on an empty pop,
and push `l.<op>(&r)`. -/
def interpretFrom (consts : List Value) :
    List (Instruction × Nat) → List Value → VMOutcome
  | [], _ => .crash
  | (Instruction.ret, _) :: _, stack => .ok stack.head?
  | (Instruction.constant c, _) :: rest, stack =>
    match consts.get? c with
    | some v => interpretFrom consts rest (v :: stack)
    | none => .crash
  | (Instruction.negate, _) :: rest, stack =>
    match stack with
    | v :: s => interpretFrom consts rest (v.negate :: s)
    | [] => .runtimeError
  | (Instruction.add, _) :: rest, stack =>
    match stack with
    | r :: l :: s => interpretFrom consts rest (l.add r :: s)
    | _ => .runtimeError
  | (Instruction.multiply, _) :: rest, stack =>
    match stack with
    | r :: l :: s => interpretFrom consts rest (l.multiply r :: s)
    | _ => .runtimeError
  | (Instruction.divide, _) :: rest, stack =>
    match stack with
    | r :: l :: s => interpretFrom consts rest (l.divide r :: s)
    | _ => .runtimeError
  | (Instruction.subtract, _) :: rest, stack =>
    match stack with
    | r :: l :: s => interpretFrom consts rest (l.subtract r :: s)
    | _ => .runtimeError

/-- `VM::interpret` on a fresh `VM::new()` (`ip = 0`, empty stack). -/
def interpret (chunk : Chunk) : VMOutcome :=
  interpretFrom chunk.constants chunk.instructions []

/-- `interpret_source` (`vm.rs`, lines 77-80): call `compile` for its side
effects and return `InterpretResult::Ok` unconditionally; no VM is
constructed and the compiled chunk is never executed. -/
def interpretSource (source : String) : Except CompileCrash InterpretResult :=
  (compile source).map fun _ => InterpretResult.ok

/-! ## Derived predicates used by the claims -/

/-- Every `Constant(i)` instruction of the chunk satisfies
`i < len(constants)`. -/
def chunkConstOk (c : Chunk) : Bool :=
  c.instructions.all fun p =>
    match p.1 with
    | Instruction.constant i => decide (i < c.constants.length)
    | _ => true

/-- No `Return` instruction occurs in the chunk. -/
def chunkNoRet (c : Chunk) : Bool :=
  c.instructions.all fun p => decide (p.1 ≠ Instruction.ret)

/-- Number of `Return` instructions in an instruction sequence. -/
def retCount (l : List (Instruction × Nat)) : Nat :=
  (l.filter fun p => p.1 == Instruction.ret).length

/-- `last_token_line` agrees with the line of the token most recently moved
into `previous` (when there is one). -/
def prevLineOk (st : Compiler) : Bool :=
  st.previous.all fun t => st.lastTokenLine == t.line

/-- Invariant maintained by every expression-parsing function: constant
indices in bounds, no `Return` emitted yet, and `last_token_line` consistent
with `previous`. -/
def Compiler.inv (st : Compiler) : Bool :=
  chunkConstOk st.chunk && chunkNoRet st.chunk && prevLineOk st

/-! ## Helper lemmas -/

instance {ε α : Type} [DecidableEq ε] [DecidableEq α] : DecidableEq (Except ε α) := fun x y =>
  match x, y with
  | Except.error a, Except.error b =>
    if h : a = b then .isTrue (by rw [h]) else .isFalse (fun hh => h (by cases hh; rfl))
  | Except.ok a, Except.ok b =>
    if h : a = b then .isTrue (by rw [h]) else .isFalse (fun hh => h (by cases hh; rfl))
  | Except.error _, Except.ok _ => .isFalse (fun hh => by cases hh)
  | Except.ok _, Except.error _ => .isFalse (fun hh => by cases hh)

theorem except_bind_ok {ε α β : Type} {x : Except ε α} {f : α → Except ε β} {b : β} :
    (x >>= f) = Except.ok b ↔ ∃ a, x = Except.ok a ∧ f a = Except.ok b := by
  cases x <;> simp [Bind.bind, Except.bind]

theorem except_map_ok {ε α β : Type} {f : α → β} {x : Except ε α} {b : β} :
    x.map f = Except.ok b ↔ ∃ a, x = Except.ok a ∧ f a = b := by
  cases x <;> simp [Except.map]

theorem inv_reportError (st : Compiler) (m : String) (t : Token) :
    Compiler.inv (st.reportError m t) = Compiler.inv st := by
  unfold Compiler.reportError
  split <;> rfl

theorem inv_reportErrorAtTheEnd (st : Compiler) (m : String) :
    Compiler.inv (st.reportErrorAtTheEnd m) = Compiler.inv st := by
  unfold Compiler.reportErrorAtTheEnd
  split <;> rfl

@[simp] theorem reportError_chunk (st : Compiler) (m : String) (t : Token) :
    (st.reportError m t).chunk = st.chunk := by
  unfold Compiler.reportError; split <;> rfl

@[simp] theorem reportError_previous (st : Compiler) (m : String) (t : Token) :
    (st.reportError m t).previous = st.previous := by
  unfold Compiler.reportError; split <;> rfl

@[simp] theorem reportError_lastTokenLine (st : Compiler) (m : String) (t : Token) :
    (st.reportError m t).lastTokenLine = st.lastTokenLine := by
  unfold Compiler.reportError; split <;> rfl

theorem advanceLoop_frame : ∀ (n : Nat) (st st' : Compiler),
    Compiler.advanceLoop n st = Except.ok st' →
    st'.chunk = st.chunk ∧ st'.previous = st.previous ∧
      st'.lastTokenLine = st.lastTokenLine := by
  intro n
  induction n with
  | zero => intro st st' h; simp [Compiler.advanceLoop] at h
  | succ n ih =>
    intro st st' h
    unfold Compiler.advanceLoop at h
    revert h
    split
    · split
      · intro h
        simpa using ih _ _ h
      · intro h
        cases h
        exact ⟨rfl, rfl, rfl⟩
    · intro h
      cases h
      exact ⟨rfl, rfl, rfl⟩

theorem advanceC_spec (n : Nat) (st st' : Compiler)
    (h : Compiler.advanceC n st = Except.ok st') :
    st'.chunk = st.chunk ∧ prevLineOk st' = true := by
  unfold Compiler.advanceC at h
  obtain ⟨hc, hp, hl⟩ := advanceLoop_frame _ _ _ h
  refine ⟨by simpa using hc, ?_⟩
  rw [prevLineOk, hp, hl]
  cases st.current <;> simp

theorem advanceC_inv (n : Nat) (st st' : Compiler)
    (h : Compiler.advanceC n st = Except.ok st') :
    Compiler.inv st = true → Compiler.inv st' = true := by
  intro hinv
  obtain ⟨hc, hp⟩ := advanceC_spec n st st' h
  simp only [Compiler.inv, Bool.and_eq_true] at hinv ⊢
  exact ⟨⟨by rw [hc]; exact hinv.1.1, by rw [hc]; exact hinv.1.2⟩, hp⟩

theorem consume_inv (n : Nat) (st st' : Compiler) (tt : TokenType) (m : String)
    (h : Compiler.consume n st tt m = Except.ok st') :
    Compiler.inv st = true → Compiler.inv st' = true := by
  unfold Compiler.consume at h
  revert h
  split
  · split
    · intro h; exact advanceC_inv _ _ _ h
    · intro h hinv
      cases h
      rw [inv_reportError]; exact hinv
  · intro h hinv
    cases h
    rw [inv_reportErrorAtTheEnd]; exact hinv

theorem chunkConstOk_add (c : Chunk) (i : Instruction) (ln : Nat)
    (h : chunkConstOk c = true)
    (hi : ∀ j, i = Instruction.constant j → j < c.constants.length) :
    chunkConstOk (c.addInstruction i ln) = true := by
  simp only [chunkConstOk, Chunk.addInstruction, List.all_append, List.all_eq_true,
    Bool.and_eq_true] at h ⊢
  refine ⟨h, ?_⟩
  intro p hp
  simp only [List.mem_singleton] at hp
  subst hp
  cases hic : i with
  | constant j => simpa using hi j hic
  | _ => simp

theorem chunkNoRet_add (c : Chunk) (i : Instruction) (ln : Nat)
    (h : chunkNoRet c = true) (hi : i ≠ Instruction.ret) :
    chunkNoRet (c.addInstruction i ln) = true := by
  simp only [chunkNoRet, Chunk.addInstruction, List.all_append, List.all_eq_true,
    Bool.and_eq_true] at h ⊢
  refine ⟨h, ?_⟩
  intro p hp
  simp only [List.mem_singleton] at hp
  subst hp
  simpa using hi

theorem inv_emitLast (st : Compiler) (i : Instruction)
    (hr : i ≠ Instruction.ret)
    (hc : ∀ j, i = Instruction.constant j → j < st.chunk.constants.length)
    (h : Compiler.inv st = true) :
    Compiler.inv (st.emitInstructionForLastToken i) = true := by
  simp only [Compiler.inv, Bool.and_eq_true] at h ⊢
  refine ⟨⟨chunkConstOk_add _ _ _ h.1.1 hc, chunkNoRet_add _ _ _ h.1.2 hr⟩, h.2⟩

theorem inv_emitInstruction (st : Compiler) (i : Instruction) (t : Token)
    (hr : i ≠ Instruction.ret)
    (hc : ∀ j, i = Instruction.constant j → j < st.chunk.constants.length)
    (h : Compiler.inv st = true) :
    Compiler.inv (st.emitInstruction i t) = true := by
  simp only [Compiler.inv, Bool.and_eq_true] at h ⊢
  refine ⟨⟨chunkConstOk_add _ _ _ h.1.1 hc, chunkNoRet_add _ _ _ h.1.2 hr⟩, h.2⟩

theorem chunkConstOk_addConstant (c : Chunk) (v : Value)
    (h : chunkConstOk c = true) :
    chunkConstOk { c with constants := c.constants ++ [v] } = true := by
  simp only [chunkConstOk, List.all_eq_true] at h ⊢
  intro p hp
  have := h p hp
  revert this
  cases p.1 <;> simp
  omega

theorem inv_numberFn (st : Compiler) (d : ℚ) (t : Token)
    (h : Compiler.inv st = true) :
    Compiler.inv (Compiler.numberFn st d t) = true := by
  unfold Compiler.numberFn Chunk.addConstant
  simp only [Compiler.inv, Bool.and_eq_true] at h ⊢
  refine ⟨⟨?_, ?_⟩, ?_⟩
  · refine chunkConstOk_add _ _ _ (chunkConstOk_addConstant _ _ h.1.1) ?_
    intro j hj
    cases hj
    simp
  · exact chunkNoRet_add _ _ _ h.1.2 (by simp)
  · exact h.2

/-- Preservation of `Compiler.inv` by a parser computation. -/
def ParserPres (r : Except CompileCrash Compiler) (st : Compiler) : Prop :=
  ∀ st', r = Except.ok st' → Compiler.inv st = true → Compiler.inv st' = true

/-- Every expression-parsing function preserves the compiler invariant:
parsing emits only `Constant` instructions with freshly allocated in-bounds
indices and arithmetic instructions, never `Return`. -/
theorem parser_inv : ∀ n : Nat,
    (∀ prec st, ParserPres (Compiler.parsePrecedence n prec st) st) ∧
    (∀ prec st, ParserPres (Compiler.parseLoop n prec st) st) ∧
    (∀ t st, ParserPres (Compiler.prefixRule n t st) st) ∧
    (∀ t st, ParserPres (Compiler.infixRule n t st) st) ∧
    (∀ st, ParserPres (Compiler.grouping n st) st) ∧
    (∀ t st, ParserPres (Compiler.unary n t st) st) ∧
    (∀ t st, ParserPres (Compiler.binary n t st) st) ∧
    (∀ st, ParserPres (Compiler.expression n st) st) := by
  intro n
  induction n using Nat.strong_induction_on with
  | _ n ih =>
    have hpp : ∀ prec st, ParserPres (Compiler.parsePrecedence n prec st) st := by
      intro prec st st' h hinv
      cases n with
      | zero => simp [Compiler.parsePrecedence] at h
      | succ m =>
        rw [Compiler.parsePrecedence] at h
        rw [except_bind_ok] at h
        obtain ⟨st1, hadv, hrest⟩ := h
        have hinv1 := advanceC_inv _ _ _ hadv hinv
        revert hrest
        split
        · intro hrest
          cases hrest
          exact hinv1
        · intro hrest
          rw [except_bind_ok] at hrest
          obtain ⟨st2, hpre, hloop⟩ := hrest
          have hinv2 := (ih m (Nat.lt_succ_self m)).2.2.1 _ _ _ hpre hinv1
          exact (ih m (Nat.lt_succ_self m)).2.1 _ _ _ hloop hinv2
    have hloop : ∀ prec st, ParserPres (Compiler.parseLoop n prec st) st := by
      intro prec st st' h hinv
      cases n with
      | zero => simp [Compiler.parseLoop] at h
      | succ m =>
        rw [Compiler.parseLoop] at h
        revert h
        split
        · intro h; cases h; exact hinv
        · split
          · intro h; cases h; exact hinv
          · intro h
            rw [except_bind_ok] at h
            obtain ⟨st1, hadv, hrest⟩ := h
            have hinv1 := advanceC_inv _ _ _ hadv hinv
            revert hrest
            split
            · intro hrest; exact absurd hrest (by simp)
            · intro hrest
              rw [except_bind_ok] at hrest
              obtain ⟨st2, hinf, hrec⟩ := hrest
              have hinv2 := (ih m (Nat.lt_succ_self m)).2.2.2.1 _ _ _ hinf hinv1
              exact (ih m (Nat.lt_succ_self m)).2.1 _ _ _ hrec hinv2
    have hexpr : ∀ st, ParserPres (Compiler.expression n st) st := by
      intro st st' h hinv
      cases n with
      | zero => simp [Compiler.expression] at h
      | succ m =>
        rw [Compiler.expression] at h
        exact (ih m (Nat.lt_succ_self m)).1 _ _ _ h hinv
    have hbin : ∀ t st, ParserPres (Compiler.binary n t st) st := by
      intro t st st' h hinv
      unfold Compiler.binary at h
      rw [except_bind_ok] at h
      obtain ⟨st1, hpp1, hrest⟩ := h
      have hinv1 := hpp _ _ _ hpp1 hinv
      revert hrest
      split <;> intro hrest <;>
        first
        | (cases hrest
           exact inv_emitLast _ _ (by simp) (fun j hj => by simp at hj) hinv1)
        | exact absurd hrest (by simp)
    have huna : ∀ t st, ParserPres (Compiler.unary n t st) st := by
      intro t st st' h hinv
      unfold Compiler.unary at h
      rw [except_bind_ok] at h
      obtain ⟨st1, hex, hrest⟩ := h
      have hinv1 := hexpr _ _ hex hinv
      revert hrest
      split <;> intro hrest <;>
        first
        | (cases hrest
           exact inv_emitInstruction _ _ _ (by simp) (fun j hj => by simp at hj) hinv1)
        | exact absurd hrest (by simp)
    have hgrp : ∀ st, ParserPres (Compiler.grouping n st) st := by
      intro st st' h hinv
      unfold Compiler.grouping at h
      rw [except_bind_ok] at h
      obtain ⟨st1, hex, hcons⟩ := h
      exact consume_inv _ _ _ _ _ hcons (hexpr _ _ hex hinv)
    have hpre : ∀ t st, ParserPres (Compiler.prefixRule n t st) st := by
      intro t st st' h hinv
      unfold Compiler.prefixRule at h
      revert h
      split
      · intro h; exact hgrp _ _ h hinv
      · intro h; exact huna _ _ _ h hinv
      · intro h
        cases h
        exact inv_numberFn _ _ _ hinv
      · intro h
        cases h
        rw [inv_reportError]; exact hinv
    have hinf : ∀ t st, ParserPres (Compiler.infixRule n t st) st := by
      intro t st st' h hinv
      unfold Compiler.infixRule at h
      revert h
      split <;> intro h <;>
        first
        | exact hbin _ _ _ h hinv
        | exact absurd h (by simp)
    exact ⟨hpp, hloop, hpre, hinf, hgrp, huna, hbin, hexpr⟩

theorem inv_new (src : List Char) : Compiler.inv (Compiler.new src) = true := by
  rcases h : (Scanner.new src).nextToken with ⟨c, sc⟩
  simp [Compiler.new, h, Compiler.inv, chunkConstOk, chunkNoRet, prevLineOk, Chunk.new]

theorem getLast?_append_singleton {α : Type} (l : List α) (a : α) :
    (l ++ [a]).getLast? = some a := by
  induction l with
  | nil => rfl
  | cons x xs ih =>
    rw [List.cons_append, List.getLast?_cons]
    simp [List.getLastD_eq_getLast?, ih]

theorem retCount_append_ret (c : Chunk) (k : Nat) (h : chunkNoRet c = true) :
    retCount (c.instructions ++ [(Instruction.ret, k)]) = 1 := by
  rw [retCount, List.filter_append]
  have hnil : c.instructions.filter (fun p => p.1 == Instruction.ret) = [] := by
    rw [List.filter_eq_nil_iff]
    intro p hp
    simp only [chunkNoRet, List.all_eq_true, decide_eq_true_eq] at h
    simpa using h p hp
  rw [hnil]
  rfl

/-- The final compiler state of a completed run: the chunk of the parsed
expression followed by the trailing `Return`, with the invariant intact. -/
theorem runCompiler_split (s : String) (st : Compiler)
    (h : runCompiler s = Except.ok st) :
    ∃ st1, Compiler.expression (compileFuel s) (Compiler.new s.toList) = Except.ok st1 ∧
      st = Compiler.finishCompiler st1 ∧ Compiler.inv st1 = true := by
  rw [runCompiler, except_map_ok] at h
  obtain ⟨st1, h1, h2⟩ := h
  exact ⟨st1, h1,  h2.symm,
    (parser_inv (compileFuel s)).2.2.2.2.2.2.2 _ _ h1 (inv_new _)⟩

/-! ## Scanner lemmas for the number/dot disambiguation -/

theorem digit_ne_special (c : Char) (h : c.isDigit = true) :
    c ≠ ' ' ∧ c ≠ '\r' ∧ c ≠ '\t' ∧ c ≠ '\n' ∧ c ≠ '/' := by
  refine ⟨?_, ?_, ?_, ?_, ?_⟩ <;> (rintro rfl; exact absurd h (by decide))

theorem syncStart_zero (st : Scanner) (h : st.curLen = 0) : st.syncStart = st := by
  cases st
  simp_all [Scanner.syncStart]

theorem wsLoop_stop (n : Nat) (st : Scanner) (c0 : Char) (hp : st.peek = some c0)
    (h1 : c0 ≠ ' ') (h2 : c0 ≠ '\r') (h3 : c0 ≠ '\t') (h4 : c0 ≠ '\n') (h5 : c0 ≠ '/') :
    Scanner.wsLoop (n + 1) st = st := by
  rw [Scanner.wsLoop, hp]
  simp [h1, h2, h3, h4, h5]

theorem skipWs_stop (n : Nat) (st : Scanner) (c0 : Char) (hp : st.peek = some c0)
    (h1 : c0 ≠ ' ') (h2 : c0 ≠ '\r') (h3 : c0 ≠ '\t') (h4 : c0 ≠ '\n') (h5 : c0 ≠ '/')
    (hc : st.curLen = 0) :
    Scanner.skipWhitespaces (n + 1) st = st := by
  rw [Scanner.skipWhitespaces, wsLoop_stop n st c0 hp h1 h2 h3 h4 h5, syncStart_zero st hc]

theorem awd_run : ∀ (ds : List Char) (n : Nat) (st : Scanner) (rest : List Char),
    ds.length < n → st.lookAhead = none → st.current = ds ++ rest →
    ds.all Char.isDigit = true →
    (rest.head?.all fun x => !x.isDigit) = true →
    Scanner.advanceWhileDigit n st =
      { st with current := rest, curLen := st.curLen + ds.length } := by
  intro ds
  induction ds with
  | nil =>
    intro n st rest hn hla hcur _ hstop
    cases n with
    | zero => omega
    | succ m =>
      rw [Scanner.advanceWhileDigit]
      simp only [List.nil_append] at hcur
      cases st
      simp_all [Scanner.peek]
      cases rest with
      | nil => simp
      | cons x xs =>
        simp_all
  | cons d ds ih =>
    intro n st rest hn hla hcur hdig hstop
    cases n with
    | zero => omega
    | succ m =>
      simp only [List.all_cons, Bool.and_eq_true] at hdig
      rw [Scanner.advanceWhileDigit]
      have hpeek : st.peek = some d := by
        rw [Scanner.peek, hla, hcur]
        rfl
      rw [hpeek]
      simp only [hdig.1, if_true]
      have hadv : (st.advance).2 =
          { st with current := ds ++ rest, lookAhead := none, curLen := st.curLen + 1 } := by
        simp [Scanner.advance, hla, hcur]
      rw [hadv, ih m _ rest (by simp at hn; omega) rfl rfl hdig.2 hstop]
      simp [hla, Nat.add_assoc, Nat.add_comm 1 ds.length]

theorem matchChar_digit (n : Nat) (d : Char) (st : Scanner) (hd : d.isDigit = true) :
    Scanner.matchChar n d st = Scanner.numberTok n st := by
  rw [Scanner.matchChar.eq_def]
  split <;> first
    | (exact absurd hd (by decide))
    | (rename_i hne; simp [hd])

theorem takeWhile_append_not {p : Char → Bool} :
    ∀ (A B : List Char), A.all p = true → (∀ x, B.head? = some x → p x = false) →
      (A ++ B).takeWhile p = A ∧ (A ++ B).dropWhile p = B := by
  intro A
  induction A with
  | nil =>
    intro B _ hB
    cases B with
    | nil => exact ⟨rfl, rfl⟩
    | cons b bs =>
      have hb := hB b rfl
      simp [List.takeWhile_cons, List.dropWhile_cons, hb]
  | cons a as ih =>
    intro B hA hB
    simp only [List.all_cons, Bool.and_eq_true] at hA
    have := ih B hA.2 hB
    simp [List.takeWhile_cons, List.dropWhile_cons, hA.1, this.1, this.2]

theorem parseDouble_digits (cs : List Char) (h : cs.all Char.isDigit = true) :
    Scanner.parseDouble cs = (Scanner.digitsVal cs : ℚ) := by
  have := takeWhile_append_not cs [] h (fun x hx => by simp at hx)
  simp only [List.append_nil] at this
  rw [Scanner.parseDouble, this.1, this.2]

theorem parseDouble_frac (A B : List Char) (hA : A.all Char.isDigit = true)
    (_hB : B.all Char.isDigit = true) :
    Scanner.parseDouble (A ++ '.' :: B) =
      (Scanner.digitsVal A : ℚ) + (Scanner.digitsVal B : ℚ) / (10 ^ B.length : ℚ) := by
  have := takeWhile_append_not A ('.' :: B) hA (fun x hx => by cases hx; decide)
  rw [Scanner.parseDouble, this.1, this.2]
  rfl

theorem scanDot_after_number (n : Nat) (c : Char) (rest : List Char) :
    Scanner.nextToken
        { start := '.' :: c :: rest, current := c :: rest, lookAhead := some '.',
          curLen := 0, line := n } =
      (some { t_type := TokenType.dot, line := n },
       { start := '.' :: c :: rest, current := c :: rest, lookAhead := none,
         curLen := 1, line := n }) := by
  have hp : Scanner.peek
      { start := '.' :: c :: rest, current := c :: rest, lookAhead := some '.',
        curLen := 0, line := n } = some '.' := rfl
  simp only [Scanner.nextToken, Scanner.nextTok, Scanner.fuelFor]
  rw [skipWs_stop _ _ '.' hp (by decide) (by decide) (by decide) (by decide) (by decide) rfl]
  simp [Scanner.advance, Scanner.matchChar, Scanner.makeToken]

theorem scanNumber_trailing_dot (n : Nat) (d : Char) (ds : List Char) (c : Char)
    (rest : List Char) (hd : d.isDigit = true) (hds : ds.all Char.isDigit = true)
    (hc : c.isDigit = false) :
    Scanner.nextToken
        { start := d :: (ds ++ '.' :: c :: rest), current := d :: (ds ++ '.' :: c :: rest),
          lookAhead := none, curLen := 0, line := n } =
      (some { t_type := TokenType.number (Scanner.digitsVal (d :: ds) : ℚ), line := n },
       { start := '.' :: c :: rest, current := c :: rest, lookAhead := some '.',
         curLen := 0, line := n }) := by
  have hspec := digit_ne_special d hd
  have hp : Scanner.peek
      { start := d :: (ds ++ '.' :: c :: rest), current := d :: (ds ++ '.' :: c :: rest),
        lookAhead := none, curLen := 0, line := n } = some d := rfl
  simp only [Scanner.nextToken, Scanner.nextTok, Scanner.fuelFor]
  rw [skipWs_stop _ _ d hp hspec.1 hspec.2.1 hspec.2.2.1 hspec.2.2.2.1 hspec.2.2.2.2 rfl]
  have h2 : Scanner.advance
      { start := d :: (ds ++ '.' :: c :: rest), current := d :: (ds ++ '.' :: c :: rest),
        lookAhead := none, curLen := 0, line := n } =
      (some d,
       { start := d :: (ds ++ '.' :: c :: rest), current := ds ++ '.' :: c :: rest,
         lookAhead := none, curLen := 1, line := n }) := rfl
  rw [h2]
  dsimp only
  rw [matchChar_digit _ d _ hd]
  have h4 : Scanner.advanceWhileDigit ((d :: (ds ++ '.' :: c :: rest)).length + 2)
      { start := d :: (ds ++ '.' :: c :: rest), current := ds ++ '.' :: c :: rest,
        lookAhead := none, curLen := 1, line := n } =
      { start := d :: (ds ++ '.' :: c :: rest), current := '.' :: c :: rest,
        lookAhead := none, curLen := 1 + ds.length, line := n } := by
    rw [awd_run ds _ _ ('.' :: c :: rest) (by simp; omega) rfl rfl hds rfl]
  rw [Scanner.numberTok]
  dsimp only
  rw [h4]
  have h5 : Scanner.peek
      { start := d :: (ds ++ '.' :: c :: rest), current := '.' :: c :: rest,
        lookAhead := none, curLen := 1 + ds.length, line := n } = some '.' := rfl
  rw [h5]
  have h6 : Scanner.peekNext
      { start := d :: (ds ++ '.' :: c :: rest), current := '.' :: c :: rest,
        lookAhead := none, curLen := 1 + ds.length, line := n } =
      (some c,
       { start := d :: (ds ++ '.' :: c :: rest), current := c :: rest,
         lookAhead := some '.', curLen := 1 + ds.length, line := n }) := rfl
  rw [h6]
  simp only [hc, Bool.false_eq_true, if_false]
  have h7 : Scanner.scanLexeme
      { start := d :: (ds ++ '.' :: c :: rest), current := c :: rest,
        lookAhead := some '.', curLen := 1 + ds.length, line := n } =
      (d :: ds,
       { start := '.' :: c :: rest, current := c :: rest,
         lookAhead := some '.', curLen := 0, line := n }) := by
    rw [Scanner.scanLexeme]
    have e : d :: (ds ++ '.' :: c :: rest) = (d :: ds) ++ ('.' :: c :: rest) := rfl
    have el : 1 + ds.length = (d :: ds).length := by simp [Nat.add_comm]
    rw [e, el, List.take_left, List.drop_left]
  rw [h7]
  rw [Scanner.makeToken]
  rw [parseDouble_digits (d :: ds) (by simp [hd, hds])]

theorem scanNumber_fraction (n : Nat) (d : Char) (ds : List Char) (c2 : Char)
    (ds2 rest : List Char) (hd : d.isDigit = true) (hds : ds.all Char.isDigit = true)
    (hc2 : c2.isDigit = true) (hds2 : ds2.all Char.isDigit = true)
    (hstop : (rest.head?.all fun x => !x.isDigit) = true) :
    Scanner.nextToken
        { start := d :: (ds ++ '.' :: c2 :: (ds2 ++ rest)),
          current := d :: (ds ++ '.' :: c2 :: (ds2 ++ rest)),
          lookAhead := none, curLen := 0, line := n } =
      (some { t_type := TokenType.number
                ((Scanner.digitsVal (d :: ds) : ℚ) +
                  (Scanner.digitsVal (c2 :: ds2) : ℚ) / (10 ^ (c2 :: ds2).length : ℚ)),
              line := n },
       { start := rest, current := rest, lookAhead := none, curLen := 0, line := n }) := by
  have hspec := digit_ne_special d hd
  have hp : Scanner.peek
      { start := d :: (ds ++ '.' :: c2 :: (ds2 ++ rest)),
        current := d :: (ds ++ '.' :: c2 :: (ds2 ++ rest)),
        lookAhead := none, curLen := 0, line := n } = some d := rfl
  simp only [Scanner.nextToken, Scanner.nextTok, Scanner.fuelFor]
  rw [skipWs_stop _ _ d hp hspec.1 hspec.2.1 hspec.2.2.1 hspec.2.2.2.1 hspec.2.2.2.2 rfl]
  have h2 : Scanner.advance
      { start := d :: (ds ++ '.' :: c2 :: (ds2 ++ rest)),
        current := d :: (ds ++ '.' :: c2 :: (ds2 ++ rest)),
        lookAhead := none, curLen := 0, line := n } =
      (some d,
       { start := d :: (ds ++ '.' :: c2 :: (ds2 ++ rest)),
         current := ds ++ '.' :: c2 :: (ds2 ++ rest),
         lookAhead := none, curLen := 1, line := n }) := rfl
  rw [h2]
  dsimp only
  rw [matchChar_digit _ d _ hd]
  have h4 : Scanner.advanceWhileDigit ((d :: (ds ++ '.' :: c2 :: (ds2 ++ rest))).length + 2)
      { start := d :: (ds ++ '.' :: c2 :: (ds2 ++ rest)),
        current := ds ++ '.' :: c2 :: (ds2 ++ rest),
        lookAhead := none, curLen := 1, line := n } =
      { start := d :: (ds ++ '.' :: c2 :: (ds2 ++ rest)),
        current := '.' :: c2 :: (ds2 ++ rest),
        lookAhead := none, curLen := 1 + ds.length, line := n } := by
    rw [awd_run ds _ _ ('.' :: c2 :: (ds2 ++ rest)) (by simp; omega) rfl rfl hds rfl]
  rw [Scanner.numberTok]
  dsimp only
  rw [h4]
  have h5 : Scanner.peek
      { start := d :: (ds ++ '.' :: c2 :: (ds2 ++ rest)),
        current := '.' :: c2 :: (ds2 ++ rest),
        lookAhead := none, curLen := 1 + ds.length, line := n } = some '.' := rfl
  rw [h5]
  have h6 : Scanner.peekNext
      { start := d :: (ds ++ '.' :: c2 :: (ds2 ++ rest)),
        current := '.' :: c2 :: (ds2 ++ rest),
        lookAhead := none, curLen := 1 + ds.length, line := n } =
      (some c2,
       { start := d :: (ds ++ '.' :: c2 :: (ds2 ++ rest)),
         current := c2 :: (ds2 ++ rest),
         lookAhead := some '.', curLen := 1 + ds.length, line := n }) := rfl
  rw [h6]
  simp only [hc2, if_true]
  have h7 : (Scanner.advance
      { start := d :: (ds ++ '.' :: c2 :: (ds2 ++ rest)),
        current := c2 :: (ds2 ++ rest),
        lookAhead := some '.', curLen := 1 + ds.length, line := n }).2 =
      { start := d :: (ds ++ '.' :: c2 :: (ds2 ++ rest)),
        current := c2 :: (ds2 ++ rest),
        lookAhead := none, curLen := 1 + ds.length + 1, line := n } := rfl
  rw [h7]
  have h8 : Scanner.advanceWhileDigit ((d :: (ds ++ '.' :: c2 :: (ds2 ++ rest))).length + 2)
      { start := d :: (ds ++ '.' :: c2 :: (ds2 ++ rest)),
        current := c2 :: (ds2 ++ rest),
        lookAhead := none, curLen := 1 + ds.length + 1, line := n } =
      { start := d :: (ds ++ '.' :: c2 :: (ds2 ++ rest)),
        current := rest,
        lookAhead := none, curLen := 1 + ds.length + 1 + (c2 :: ds2).length, line := n } := by
    rw [awd_run (c2 :: ds2) _ _ rest (by simp; omega) rfl (by simp) (by simp [hc2, hds2]) hstop]
  rw [h8]
  have h9 : Scanner.scanLexeme
      { start := d :: (ds ++ '.' :: c2 :: (ds2 ++ rest)),
        current := rest,
        lookAhead := none, curLen := 1 + ds.length + 1 + (c2 :: ds2).length, line := n } =
      ((d :: ds) ++ '.' :: (c2 :: ds2),
       { start := rest, current := rest, lookAhead := none, curLen := 0, line := n }) := by
    rw [Scanner.scanLexeme]
    have e : d :: (ds ++ '.' :: c2 :: (ds2 ++ rest)) =
        ((d :: ds) ++ '.' :: (c2 :: ds2)) ++ rest := by
      simp
    have el : 1 + ds.length + 1 + (c2 :: ds2).length =
        ((d :: ds) ++ '.' :: (c2 :: ds2)).length := by
      simp
      omega
    rw [e, el, List.take_left, List.drop_left]
  rw [h9]
  rw [Scanner.makeToken]
  rw [parseDouble_frac (d :: ds) (c2 :: ds2) (by simp [hd, hds]) (by simp [hc2, hds2])]

/-! ## Claim theorems -/

/-- Concrete final compiler state for `"1"`; used to witness C6. -/
def c6st : Compiler :=
  { scanner := { start := [], current := [], lookAhead := none, curLen := 0, line := 1 }
    current := none
    previous := some { t_type := TokenType.number 1, line := 1 }
    errors := []
    panicMode := false
    chunk := { instructions := [(Instruction.constant 0, 1), (Instruction.ret, 1)]
               constants := [Value.double 1] }
    lastTokenLine := 1 }

/-- Concrete final compiler state for `"1 + 4 / 2"`; used to witness C7. -/
def c7st : Compiler :=
  { scanner := { start := [], current := [], lookAhead := none, curLen := 0, line := 1 }
    current := none
    previous := some { t_type := TokenType.number 2, line := 1 }
    errors := []
    panicMode := false
    chunk := { instructions :=
                 [(Instruction.constant 0, 1), (Instruction.constant 1, 1),
                  (Instruction.constant 2, 1), (Instruction.divide, 1),
                  (Instruction.add, 1), (Instruction.ret, 1)]
               constants := [Value.double 1, Value.double 4, Value.double 2] }
    lastTokenLine := 1 }

/-- Concrete final compiler state for `"(1"` (one collected error); used to
witness C2. -/
def c2st : Compiler :=
  { scanner := { start := [], current := [], lookAhead := none, curLen := 0, line := 1 }
    current := none
    previous := some { t_type := TokenType.number 1, line := 1 }
    errors := [{ location := ErrorLocation.atTheEnd
                 msg := "Expect to have ')' at the end of grouping expression" }]
    panicMode := true
    chunk := { instructions := [(Instruction.constant 0, 1), (Instruction.ret, 1)]
               constants := [Value.double 1] }
    lastTokenLine := 1 }

/-- The errors collected by a completed compilation. -/
def compilerErrors (r : Except CompileCrash Compiler) : List Error :=
  match r with
  | Except.ok st => st.errors
  | Except.error _ => []

/-- C1: compiling `"1 + 4 / 2"` produces exactly the claimed constant pool
`[1.0, 4.0, 2.0]` and instruction sequence
`[Constant(0), Constant(1), Constant(2), Divide, Add, Return]`, but executing
that code object yields `-1.0`, not the claimed `3.0`: `Value::add` is
produced by the macro invocation `binary_operator!(self, add, -)`
(`value.rs` line 25), so the `Add` instruction computes `left - right`.
(All values involved are small integers, on which IEEE-754 double arithmetic
is exact, so the rational model is faithful here.) -/
theorem claimC1 :
    compileToChunk "1 + 4 / 2" =
      Except.ok
        { instructions :=
            [(Instruction.constant 0, 1), (Instruction.constant 1, 1),
             (Instruction.constant 2, 1), (Instruction.divide, 1),
             (Instruction.add, 1), (Instruction.ret, 1)]
          constants := [Value.double 1, Value.double 4, Value.double 2] } ∧
    interpret
        { instructions :=
            [(Instruction.constant 0, 1), (Instruction.constant 1, 1),
             (Instruction.constant 2, 1), (Instruction.divide, 1),
             (Instruction.add, 1), (Instruction.ret, 1)]
          constants := [Value.double 1, Value.double 4, Value.double 2] } =
      VMOutcome.ok (some (Value.double (-1))) ∧
    Value.add (Value.double 1) (Value.double 2) = Value.double (-1) := by
  refine ⟨by with_unfolding_all decide, by with_unfolding_all decide, by with_unfolding_all decide⟩

/-- C2 counterexample: the public entry point `compile` has return type `()`
(`pub fn compile(source: &str)`, `compiler.rs` line 5); it returns neither a
code object nor the collected errors.  For the source `"(1"` the compiler
collects a (non-empty) error list, yet `compile` returns exactly the same
unit value as for the error-free source `"1"`. -/
theorem claimC2_counterexample :
    compilerErrors (runCompiler "(1") ≠ [] ∧
    compile "(1" = Except.ok () ∧ compile "1" = Except.ok () := by
  refine ⟨by with_unfolding_all decide, by with_unfolding_all decide, by with_unfolding_all decide⟩

/-- C2 amended: the internal `compile_to_chunk` always returns a code object
whenever compilation terminates normally, even when errors were collected
(errors are accumulated in a list on the compiler state, never thrown), but
the public `compile` entry point discards both the chunk and the errors and
returns unit. -/
theorem claimC2_amended (s : String) (st : Compiler)
    (h : runCompiler s = Except.ok st) :
    compileToChunk s = Except.ok st.chunk ∧ compile s = Except.ok () := by
  constructor
  · rw [compileToChunk, h]; rfl
  · rw [compile, compileToChunk, h]; rfl

theorem claimC2_amended_witness :
    compileToChunk "(1" = Except.ok c2st.chunk ∧ compile "(1" = Except.ok () :=
  claimC2_amended "(1" c2st (by with_unfolding_all decide)

/-- C3: `interpret_source` (`vm.rs` lines 77-80) compiles the source and
returns `InterpretResult::Ok` unconditionally; its result is exactly the
compilation outcome mapped to `Ok`, independent of what executing the chunk
would do.  In particular `"1 +"` compiles (without even a compile error) to a
chunk whose execution runtime-faults, yet `interpret_source` returns `Ok`. -/
theorem claimC3 :
    (∀ s : String,
        interpretSource s = (compileToChunk s).map fun _ => InterpretResult.ok) ∧
    interpretSource "1 +" = Except.ok InterpretResult.ok ∧
    (compileToChunk "1 +").map interpret = Except.ok VMOutcome.runtimeError := by
  refine ⟨fun s => ?_, by with_unfolding_all decide, by with_unfolding_all decide⟩
  rw [interpretSource, compile]
  cases compileToChunk s <;> rfl

/-- C4: the VM's binary arms pop the right operand first, the left second,
and push `l.<op>(&r)` — so `Subtract` and `Divide` use source operand order —
but the pushed value for `Add` is `Value::add l r = l - r`
(`binary_operator!(self, add, -)`, `value.rs` line 25), not `left + right`:
with left `1.0` and right `2.0` on the stack, `Add` pushes `-1.0` where the
claim requires `3.0`. -/
theorem claimC4 :
    (∀ (consts : List Value) (rest : List (Instruction × Nat)) (ln : Nat)
        (l r : Value) (s : List Value),
      interpretFrom consts ((Instruction.add, ln) :: rest) (r :: l :: s) =
        interpretFrom consts rest (l.add r :: s) ∧
      interpretFrom consts ((Instruction.subtract, ln) :: rest) (r :: l :: s) =
        interpretFrom consts rest (l.subtract r :: s) ∧
      interpretFrom consts ((Instruction.multiply, ln) :: rest) (r :: l :: s) =
        interpretFrom consts rest (l.multiply r :: s) ∧
      interpretFrom consts ((Instruction.divide, ln) :: rest) (r :: l :: s) =
        interpretFrom consts rest (l.divide r :: s)) ∧
    Value.subtract (Value.double 5) (Value.double 2) = Value.double 3 ∧
    Value.divide (Value.double 4) (Value.double 2) = Value.double 2 ∧
    Value.add (Value.double 1) (Value.double 2) = Value.double (-1) ∧
    interpret
        { instructions := [(Instruction.constant 0, 1), (Instruction.constant 1, 1),
                           (Instruction.add, 1), (Instruction.ret, 1)]
          constants := [Value.double 1, Value.double 2] } =
      VMOutcome.ok (some (Value.double (-1))) := by
  exact ⟨fun _ _ _ _ _ _ => ⟨rfl, rfl, rfl, rfl⟩, by with_unfolding_all decide, by with_unfolding_all decide, by with_unfolding_all decide, by with_unfolding_all decide⟩

/-- C5: an empty-stack pop during `Negate` or a binary instruction makes
`interpret` return the runtime-fault outcome, from any constant pool, any
following instructions and any starting point of execution; the pops go
through `Vec::pop` (`stack_pop`, `vm.rs` lines 72-74), which returns an
`Option` — there is no out-of-bounds operand-stack access, as witnessed by
the result being `runtimeError` rather than `crash`. -/
theorem claimC5 :
    ∀ (consts : List Value) (rest : List (Instruction × Nat)) (ln : Nat) (v : Value),
      interpretFrom consts ((Instruction.negate, ln) :: rest) [] = VMOutcome.runtimeError ∧
      interpretFrom consts ((Instruction.add, ln) :: rest) [] = VMOutcome.runtimeError ∧
      interpretFrom consts ((Instruction.add, ln) :: rest) [v] = VMOutcome.runtimeError ∧
      interpretFrom consts ((Instruction.subtract, ln) :: rest) [] = VMOutcome.runtimeError ∧
      interpretFrom consts ((Instruction.subtract, ln) :: rest) [v] = VMOutcome.runtimeError ∧
      interpretFrom consts ((Instruction.multiply, ln) :: rest) [] = VMOutcome.runtimeError ∧
      interpretFrom consts ((Instruction.multiply, ln) :: rest) [v] = VMOutcome.runtimeError ∧
      interpretFrom consts ((Instruction.divide, ln) :: rest) [] = VMOutcome.runtimeError ∧
      interpretFrom consts ((Instruction.divide, ln) :: rest) [v] = VMOutcome.runtimeError :=
  fun _ _ _ _ => ⟨rfl, rfl, rfl, rfl, rfl, rfl, rfl, rfl, rfl⟩

/-- C6: every completed compilation ends its chunk with a `Return` tagged
with `last_token_line` (the line of the last token `advance` consumed, as
the `prevLineOk` conjunct records), that `Return` is the last instruction,
and it is the only `Return` in the sequence — parsing itself never emits
`Return`; only `finish_compiler` does, unconditionally, whether or not
errors were collected. -/
theorem claimC6 (s : String) (st : Compiler) (h : runCompiler s = Except.ok st) :
    st.chunk.instructions.getLast? = some (Instruction.ret, st.lastTokenLine) ∧
    retCount st.chunk.instructions = 1 ∧ prevLineOk st = true := by
  obtain ⟨st1, _, hfin, hinv⟩ := runCompiler_split s st h
  simp only [Compiler.inv, Bool.and_eq_true] at hinv
  subst hfin
  refine ⟨?_, ?_, ?_⟩
  · exact getLast?_append_singleton _ _
  · exact retCount_append_ret _ _ hinv.1.2
  · exact hinv.2

theorem claimC6_witness :
    c6st.chunk.instructions.getLast? = some (Instruction.ret, c6st.lastTokenLine) ∧
    retCount c6st.chunk.instructions = 1 ∧ prevLineOk c6st = true :=
  claimC6 "1" c6st (by with_unfolding_all decide)

/-- C7: in the chunk of every completed compilation, every `Constant(i)`
instruction satisfies `i < len(constants)` — `number` emits only the index
`add_constant` just allocated (`constants.len() - 1` after the push), and the
constant pool only grows afterwards — so reading `constants[i]` during
execution of a compiler-produced chunk is in bounds. -/
theorem claimC7 (s : String) (st : Compiler) (h : runCompiler s = Except.ok st) :
    chunkConstOk st.chunk = true := by
  obtain ⟨st1, _, hfin, hinv⟩ := runCompiler_split s st h
  simp only [Compiler.inv, Bool.and_eq_true] at hinv
  subst hfin
  exact chunkConstOk_add _ _ _ hinv.1.1 (fun j hj => by simp at hj)

theorem claimC7_witness : chunkConstOk c7st.chunk = true :=
  claimC7 "1 + 4 / 2" c7st (by with_unfolding_all decide)

set_option maxHeartbeats 3000000 in
/-- The model of the derived `PartialEq` on `TokenType` is exactly structural
equality: same constructor, equal payloads for the literal kinds. -/
theorem tokenTypePeq_iff (a b : TokenType) : a.peq b = true ↔ a = b := by
  cases a <;> cases b <;>
    first
    | exact ⟨fun _ => rfl, fun _ => rfl⟩
    | exact ⟨fun h => Bool.noConfusion h, fun h => TokenType.noConfusion h⟩
    | exact ⟨fun h => congrArg _ (of_decide_eq_true h),
        fun h => decide_eq_true (TokenType.identifier.inj h)⟩
    | exact ⟨fun h => congrArg _ (of_decide_eq_true h),
        fun h => decide_eq_true (TokenType.stringLit.inj h)⟩
    | exact ⟨fun h => congrArg _ (of_decide_eq_true h),
        fun h => decide_eq_true (TokenType.number.inj h)⟩
    | exact ⟨fun h => congrArg _ (of_decide_eq_true h),
        fun h => decide_eq_true (TokenType.error.inj h)⟩

/-- C8 counterexample: the `Token` `PartialEq` is `#[derive(PartialEq)]` on a
struct with fields `t_type` and `line` (`scanner.rs` lines 12-16), so it
compares the line too.  Two `Plus` tokens on lines 1 and 2 have equal types
(and no payload), yet compare unequal — contradicting the claim that line is
excluded from token equality.  (The scanner unit tests in fact rely on the
line being compared.) -/
theorem claimC8_counterexample :
    (Token.mk TokenType.plus 1).t_type = (Token.mk TokenType.plus 2).t_type ∧
    Token.peq (Token.mk TokenType.plus 1) (Token.mk TokenType.plus 2) = false := by
  exact ⟨rfl, by decide⟩

/-- C8 amended: two tokens compare equal iff their types match, their
payloads match for the literal kinds, **and** their source line numbers
match — i.e. the derived equality is full structural equality including the
line. -/
theorem claimC8_amended (a b : Token) : Token.peq a b = true ↔ a = b := by
  rw [Token.peq, Bool.and_eq_true, tokenTypePeq_iff, decide_eq_true_eq]
  cases a
  cases b
  simp [Token.mk.injEq]

/-- C10: `Compiler::unary` (`compiler.rs` lines 130-142) parses the operand
of a prefix minus with `self.expression()`, i.e. at `Assignment` (the lowest
real) precedence rather than `Unary` precedence, and only then appends
`Negate` (tagged with the operator's line) after everything the operand
expression emitted; `"-1 + 2"` therefore compiles to
`[Constant(0), Constant(1), Add, Negate, Return]`, negating the whole sum. -/
theorem claimC10 :
    (∀ (n : Nat) (st : Compiler),
      Compiler.expression (n + 1) st = Compiler.parsePrecedence n Precedence.assignment st) ∧
    (∀ (n : Nat) (t : Token) (st : Compiler), t.t_type = TokenType.minus →
      Compiler.unary n t st =
        (Compiler.expression n st).map fun st' => st'.emitInstruction Instruction.negate t) ∧
    (∀ (st : Compiler) (i : Instruction) (t : Token),
      (st.emitInstruction i t).chunk.instructions = st.chunk.instructions ++ [(i, t.line)]) ∧
    compileToChunk "-1 + 2" =
      Except.ok
        { instructions :=
            [(Instruction.constant 0, 1), (Instruction.constant 1, 1),
             (Instruction.add, 1), (Instruction.negate, 1), (Instruction.ret, 1)]
          constants := [Value.double 1, Value.double 2] } := by
  refine ⟨fun n st => by rw [Compiler.expression], fun n t st h => ?_, fun st i t => rfl,
    by with_unfolding_all decide⟩
  unfold Compiler.unary
  rw [h]
  cases Compiler.expression n st <;> rfl

set_option maxRecDepth 8192 in
/-- C9: starting at a digit, the lexer consumes a maximal digit run; it then
consumes a `.` and a further digit run exactly when the character after the
`.` is itself a digit (first and third conjuncts); otherwise the `.` is left
unconsumed — buffered in the one-character look-ahead — and the next token
emitted is a separate `Dot` (second conjunct); in particular `"644.."` lexes
as `[Number(644.0), Dot, Dot]` (fourth conjunct). -/
theorem claimC9 :
    (∀ (n : Nat) (d : Char) (ds : List Char) (c : Char) (rest : List Char),
      d.isDigit = true → ds.all Char.isDigit = true → c.isDigit = false →
      Scanner.nextToken
          { start := d :: (ds ++ '.' :: c :: rest), current := d :: (ds ++ '.' :: c :: rest),
            lookAhead := none, curLen := 0, line := n } =
        (some { t_type := TokenType.number (Scanner.digitsVal (d :: ds) : ℚ), line := n },
         { start := '.' :: c :: rest, current := c :: rest, lookAhead := some '.',
           curLen := 0, line := n })) ∧
    (∀ (n : Nat) (c : Char) (rest : List Char),
      Scanner.nextToken
          { start := '.' :: c :: rest, current := c :: rest, lookAhead := some '.',
            curLen := 0, line := n } =
        (some { t_type := TokenType.dot, line := n },
         { start := '.' :: c :: rest, current := c :: rest, lookAhead := none,
           curLen := 1, line := n })) ∧
    (∀ (n : Nat) (d : Char) (ds : List Char) (c2 : Char) (ds2 rest : List Char),
      d.isDigit = true → ds.all Char.isDigit = true → c2.isDigit = true →
      ds2.all Char.isDigit = true → (rest.head?.all fun x => !x.isDigit) = true →
      Scanner.nextToken
          { start := d :: (ds ++ '.' :: c2 :: (ds2 ++ rest)),
            current := d :: (ds ++ '.' :: c2 :: (ds2 ++ rest)),
            lookAhead := none, curLen := 0, line := n } =
        (some { t_type := TokenType.number
                  ((Scanner.digitsVal (d :: ds) : ℚ) +
                    (Scanner.digitsVal (c2 :: ds2) : ℚ) / (10 ^ (c2 :: ds2).length : ℚ)),
                line := n },
         { start := rest, current := rest, lookAhead := none, curLen := 0, line := n })) ∧
    Scanner.scanAll "644.." =
      [{ t_type := TokenType.number 644, line := 1 },
       { t_type := TokenType.dot, line := 1 },
       { t_type := TokenType.dot, line := 1 }] := by
  refine ⟨scanNumber_trailing_dot, scanDot_after_number, scanNumber_fraction,
    by with_unfolding_all decide⟩

theorem claimC9_witness :
    ('6'.isDigit = true) ∧ (['4', '4'].all Char.isDigit = true) ∧ ('.'.isDigit = false) ∧
    Scanner.nextToken
        { start := ['6', '4', '4', '.', '.'], current := ['6', '4', '4', '.', '.'],
          lookAhead := none, curLen := 0, line := 1 } =
      (some { t_type := TokenType.number (Scanner.digitsVal ['6', '4', '4'] : ℚ), line := 1 },
       { start := ['.', '.'], current := ['.'], lookAhead := some '.',
         curLen := 0, line := 1 }) :=
  ⟨by decide, by decide, by decide,
    claimC9.1 1 '6' ['4', '4'] '.' [] (by decide) (by decide) (by decide)⟩

theorem claimC10_witness :
    (Token.mk TokenType.minus 1).t_type = TokenType.minus ∧
    Compiler.unary 40 (Token.mk TokenType.minus 1) (Compiler.new "1".toList) =
      (Compiler.expression 40 (Compiler.new "1".toList)).map
        (fun st' => st'.emitInstruction Instruction.negate (Token.mk TokenType.minus 1)) :=
  ⟨rfl, claimC10.2.1 40 (Token.mk TokenType.minus 1) (Compiler.new "1".toList) rfl⟩

end Rvlox
